import Mathlib

/-!
# csv-coordinates: verification of `coordinates.go`

A shallow embedding of the string handling and of the row loop of
`coordinates.go`, followed by theorems about them.

Go strings are sequences of bytes: `len` counts bytes and slicing, `HasPrefix`,
`HasSuffix`, `Contains`, `Replace` and `Split` all work on bytes.  A string is
therefore a `List Byte`; a "character" below is one byte, as in the source
comments.
-/

namespace CsvCoordinates

/-! ## Strings -/

/-- One byte of a Go string. -/
abbrev Byte := Fin 256

/-- Go `string`: a sequence of bytes. -/
abbrev GoString := List Byte

/-- The bytes of an ASCII literal. -/
def lit (s : String) : GoString := s.toList.map (fun c => Fin.ofNat c.toNat)

/-- Run-time panic of Go on an index or a slice bound out of range. -/
inductive Fault where
  | outOfRange
  deriving DecidableEq, Repr

deriving instance DecidableEq for Except

/-- Go `strings.HasPrefix(s, p)`: `len(s) >= len(p) && s[:len(p)] == p`. -/
def HasPrefix (s p : GoString) : Bool :=
  decide (p.length ≤ s.length) && decide (s.take p.length = p)

/-- Go `strings.HasSuffix(s, p)`: `len(s) >= len(p) && s[len(s)-len(p):] == p`. -/
def HasSuffix (s p : GoString) : Bool :=
  decide (p.length ≤ s.length) && decide (s.drop (s.length - p.length) = p)

/-- Go `strings.Index(s, sub)`: the offset of the first occurrence of `sub` in
`s`, `none` for Go's `-1`. -/
def Index : GoString → GoString → Option Nat
  | [], sub => if sub = [] then some 0 else none
  | c :: s, sub =>
    if HasPrefix (c :: s) sub then some 0 else (Index s sub).map (· + 1)

/-- Go `strings.Contains(s, sub)`: `Index(s, sub) >= 0`. -/
def Contains (s sub : GoString) : Bool := (Index s sub).isSome

/-- Go `strings.Replace(s, old, new, 1)` for a non-empty `old` (the only way the
program calls it): the first occurrence of `old` is replaced, an `s` without
`old` is returned as it is. -/
def Replace1 (s old new : GoString) : GoString :=
  match Index s old with
  | none => s
  | some j => s.take j ++ new ++ s.drop (j + old.length)

/-- The loop of Go `strings.Split(s, sep)` for a non-empty `sep`: cut at the
first occurrence of `sep`, go on with what follows it.  `fuel` bounds the number
of cuts; every cut consumes at least one byte, so `s.length` is enough. -/
def splitLoop (sep : GoString) : Nat → GoString → List GoString
  | 0, s => [s]
  | fuel + 1, s =>
    match Index s sep with
    | none => [s]
    | some i => s.take i :: splitLoop sep fuel (s.drop (i + sep.length))

/-- Go `strings.Split(s, sep)` for a non-empty `sep`. -/
def Split (s sep : GoString) : List GoString := splitLoop sep s.length s

/-- ASCII lower-casing of one byte: `'A'..'Z'` are moved by `'a' - 'A'`. -/
def lowerByte (c : Byte) : Byte := if 65 ≤ c ∧ c ≤ 90 then c + 32 else c

/-- Go `strings.ToLower(s)`.  A string of ASCII bytes only (every byte below
`utf8.RuneSelf = 128`) is lower-cased byte by byte; any other string goes
through `strings.Map(unicode.ToLower, s)`, whose Unicode tables are outside the
program and are the parameter `unicodeLower`. -/
def ToLower (unicodeLower : GoString → GoString) (s : GoString) : GoString :=
  if s.all (fun c => decide (c < 128)) then
    (if s.any (fun c => decide (65 ≤ c ∧ c ≤ 90)) then s.map lowerByte else s)
  else unicodeLower s

/-- Go slice expression `s[lo:hi]` on a string: it panics unless
`0 <= lo <= hi <= len(s)`. -/
def slice (s : GoString) (lo hi : Int) : Except Fault GoString :=
  if 0 ≤ lo ∧ lo ≤ hi ∧ hi ≤ (s.length : Int) then
    .ok ((s.take hi.toNat).drop lo.toNat)
  else .error Fault.outOfRange

/-! ## The functions of `coordinates.go` -/

/-- The marker looked for in the header row. -/
def marker : GoString := lit "koordinaatit"

/-- The test of the loop of `GetColumnForCoordinates` on one header:
`strings.Contains(strings.ToLower(header), "koordinaatit")`. -/
def isCoordinateHeader (unicodeLower : GoString → GoString) (header : GoString) : Bool :=
  Contains (ToLower unicodeLower header) marker

/-- The `for i, header := range columns` loop of `GetColumnForCoordinates`:
`i` is the index of the head of the remaining columns, `coordinateCol` the
variable of the source. -/
def GetColumnForCoordinates.loop (unicodeLower : GoString → GoString) :
    List GoString → Nat → Int → Int
  | [], _, coordinateCol => coordinateCol
  | header :: rest, i, coordinateCol =>
    GetColumnForCoordinates.loop unicodeLower rest (i + 1)
      (if isCoordinateHeader unicodeLower header then (i : Int) else coordinateCol)

/-- Source `GetColumnForCoordinates`. -/
def GetColumnForCoordinates (unicodeLower : GoString → GoString)
    (columns : List GoString) : Int :=
  GetColumnForCoordinates.loop unicodeLower columns 0 (-1)

/-- Source `ParseCoordinatesFromString`. -/
def ParseCoordinatesFromString (value : GoString) : List (List GoString) :=
  let stripped := Replace1 value (lit "[[") []
  let stripped := Replace1 stripped (lit "]]") []
  let values := Split stripped (lit "] [")
  values.map (fun rowValue => Split rowValue (lit " "))

/-- Source `RemoveSquareBrackets`: `value[1 : len(value)-1]`. -/
def RemoveSquareBrackets (value : GoString) : Except Fault GoString :=
  slice value 1 ((value.length : Int) - 1)

/-- One entry of the directory listing that `main` reads: its name and whether
it is a regular file. -/
structure DirEntry where
  name : GoString
  isRegular : Bool
  deriving DecidableEq

/-- The test of the scan loop of `main` on one directory entry. -/
def main.selects (unicodeLower : GoString → GoString) (e : DirEntry) : Bool :=
  e.isRegular && HasSuffix (ToLower unicodeLower e.name) (lit ".csv")
    && !HasSuffix (ToLower unicodeLower e.name) (lit "-out.csv")

/-- The scan loop of `main`: the names appended to `fileEntries`, in the order
of the listing. -/
def main.fileEntries (unicodeLower : GoString → GoString) (entries : List DirEntry) :
    List GoString :=
  (entries.filter (main.selects unicodeLower)).map (fun e => e.name)

/-- The variable `outName` of `convertFile`:
`strings.Replace(strings.ToLower(fname), ".csv", "-out.csv", 1)`. -/
def convertFile.outName (unicodeLower : GoString → GoString) (fname : GoString) : GoString :=
  Replace1 (ToLower unicodeLower fname) (lit ".csv") (lit "-out.csv")

/-- The numeric routines that `convertFile` calls and that live outside the
program, over a type `F` standing for `float64`. -/
structure Numeric (F : Type) where
  /-- The value `strconv.ParseFloat(s, 32)` returns; the program drops the error. -/
  parseFloat : GoString → F
  /-- The text of `fmt.Sprintf("%f", v)`. -/
  format : F → GoString
  /-- The pair `(lon, lat)` of `wgs84.LonLat().From(from)(x, y, 0)`; the program
  drops the error. -/
  transform : F → F → F × F

/-- What a piece of the row loop has done: the records handed to
`csvwriter.Write`, in order, and the panic that stopped it, if any. -/
structure Outcome where
  rows : List (List GoString)
  fault : Option Fault
  deriving DecidableEq

/-- The text of `fmt.Sprintf("[%f %f]", x, y)`. -/
def sprintfPair {F : Type} (N : Numeric F) (x y : F) : GoString :=
  lit "[" ++ N.format x ++ lit " " ++ N.format y ++ lit "]"

/-- The loop `for _, value := range values` of the multi-value branch of
`convertFile`.  `lineCopy := line` copies the slice header only, so the
assignment to `lineCopy[coordinateCol]` also changes `line`: the loop goes on
with the changed `line`.  The two `append`s give the record that is written. -/
def convertFile.multi {F : Type} (N : Numeric F) (coordinateCol : Nat) :
    List GoString → List (List GoString) → Outcome
  | _, [] => ⟨[], none⟩
  | line, value :: rest =>
    match value[0]?, value[1]? with
    | some v0, some v1 =>
      let x := N.parseFloat v0
      let y := N.parseFloat v1
      let lonlat := N.transform x y
      if coordinateCol < line.length then
        let line1 := line.set coordinateCol (sprintfPair N x y)
        let lineCopy := line1 ++ [N.format lonlat.2, N.format lonlat.1]
        let later := convertFile.multi N coordinateCol line1 rest
        ⟨lineCopy :: later.rows, later.fault⟩
      else ⟨[], some Fault.outOfRange⟩
    | _, _ => ⟨[], some Fault.outOfRange⟩

/-- The single-value branch of `convertFile`, `cell` being `line[coordinateCol]`. -/
def convertFile.single {F : Type} (N : Numeric F) (line : List GoString)
    (cell : GoString) : Outcome :=
  match RemoveSquareBrackets cell with
  | .error f => ⟨[], some f⟩
  | .ok stripped =>
    let values := Split stripped (lit " ")
    match values[0]?, values[1]? with
    | some v0, some v1 =>
      let x := N.parseFloat v0
      let y := N.parseFloat v1
      let lonlat := N.transform x y
      ⟨[line ++ [N.format lonlat.2, N.format lonlat.1]], none⟩
    | _, _ => ⟨[], some Fault.outOfRange⟩

/-- The body of the row loop of `convertFile` after the end-of-stream test, for
the record `line`: the cell `line[coordinateCol]` is read (a panic when the
record has no such field), then one of the two branches runs. -/
def convertFile.row {F : Type} (N : Numeric F) (coordinateCol : Nat)
    (line : List GoString) : Outcome :=
  match (line)[coordinateCol]? with
  | none => ⟨[], some Fault.outOfRange⟩
  | some cell =>
    if HasPrefix cell (lit "[[") then
      convertFile.multi N coordinateCol line (ParseCoordinatesFromString cell)
    else convertFile.single N line cell

/-- An error of `csvReader.Read` other than `io.EOF`. -/
inductive ReadError where
  /-- `csv.ErrFieldCount`: the record is returned together with the error. -/
  | fieldCount
  /-- A `*csv.ParseError` or an error of the underlying file: no record is returned. -/
  | other
  deriving DecidableEq, Repr

/-- What one call of `csvReader.Read` returns before the end of the stream: the
record (`nil` is the empty list) and the error, if any. -/
structure ReadResult where
  record : List GoString
  err : Option ReadError
  deriving DecidableEq

/-- The row loop `for { ... }` of `convertFile` over the results of the
successive calls of `csvReader.Read`; the end of the list is the call that
returns `io.EOF`.  Only `io.EOF` is tested: the error of a result is not looked
at.  A panic ends the loop. -/
def convertFile.rows {F : Type} (N : Numeric F) (coordinateCol : Nat) :
    List ReadResult → Outcome
  | [] => ⟨[], none⟩
  | r :: rest =>
    let first := convertFile.row N coordinateCol r.record
    match first.fault with
    | some f => ⟨first.rows, some f⟩
    | none =>
      let later := convertFile.rows N coordinateCol rest
      ⟨first.rows ++ later.rows, later.fault⟩

/-- The value of a run of decimal digits, read from the left; it stops at the
first byte that is no digit. -/
def digitsValue : GoString → Nat → Nat
  | [], acc => acc
  | c :: s, acc => if 48 ≤ c ∧ c ≤ 57 then digitsValue s (acc * 10 + (c.val - 48)) else acc

/-- The decimal digits of a natural number. -/
def natDigits (n : Nat) : GoString := (Nat.toDigits 10 n).map (fun c => Fin.ofNat c.toNat)

/-- A numeric environment on whole numbers, for concrete runs: a literal is
read up to its decimal point, a value is printed with six zero decimals as `%f`
prints a whole number, and the transform is the identity on `(x, y)`. -/
def Numeric.whole : Numeric Nat where
  parseFloat := fun s => digitsValue s 0
  format := fun v => natDigits v ++ lit ".000000"
  transform := fun x y => (x, y)

/-! ## Notions used to state the properties -/

/-- A numeric token of a well-formed cell: not empty, no space, no square bracket. -/
def IsToken (t : GoString) : Prop :=
  t ≠ [] ∧ (32 : Byte) ∉ t ∧ (91 : Byte) ∉ t ∧ (93 : Byte) ∉ t

/-- The multi-value cell `"[[x1 y1] [x2 y2] ... [xn yn]]"` of the pairs
`(x1, y1), ..., (xn, yn)`. -/
def multiCell (pairs : List (GoString × GoString)) : GoString :=
  lit "[[" ++ (lit "] [").intercalate (pairs.map (fun p => p.1 ++ lit " " ++ p.2)) ++ lit "]]"

/-- The bytes of `s` before its first space (all of `s` when it has none). -/
def firstToken (s : GoString) : GoString := s.takeWhile (fun c => decide (c ≠ 32))

/-- The bytes of `s` after its first space. -/
def afterSpace (s : GoString) : GoString := (s.dropWhile (fun c => decide (c ≠ 32))).drop 1

/-- The record written for the pair of tokens `(tx, ty)` of a multi-value cell:
`line` with the coordinate cell replaced by `"[" + f(x) + " " + f(y) + "]"`,
followed by the latitude and the longitude of the transform of `(x, y)`. -/
def multiRow {F : Type} (N : Numeric F) (coordinateCol : Nat) (line : List GoString)
    (tx ty : GoString) : List GoString :=
  line.set coordinateCol
      (lit "[" ++ N.format (N.parseFloat tx) ++ lit " " ++ N.format (N.parseFloat ty) ++ lit "]")
    ++ [N.format (N.transform (N.parseFloat tx) (N.parseFloat ty)).2,
        N.format (N.transform (N.parseFloat tx) (N.parseFloat ty)).1]

/-- The record written for a single-value cell whose tokens are `(tx, ty)`:
`line` followed by the latitude and the longitude of the transform of `(x, y)`. -/
def singleRow {F : Type} (N : Numeric F) (line : List GoString) (tx ty : GoString) :
    List GoString :=
  line ++ [N.format (N.transform (N.parseFloat tx) (N.parseFloat ty)).2,
           N.format (N.transform (N.parseFloat tx) (N.parseFloat ty)).1]

/-! ## Lemmas on the string functions -/

theorem HasPrefix_cons_cons (c a : Byte) (s p : GoString) :
    HasPrefix (c :: s) (a :: p) = (decide (c = a) && HasPrefix s p) := by
  by_cases hca : c = a <;> by_cases hl : p.length ≤ s.length <;>
    simp [HasPrefix, hca, hl]

theorem HasPrefix_nil_cons (a : Byte) (p : GoString) : HasPrefix [] (a :: p) = false := by
  simp [HasPrefix]

theorem HasPrefix_append_self (p r : GoString) : HasPrefix (p ++ r) p = true := by
  simp [HasPrefix]

theorem Index_cons (c : Byte) (s sub : GoString) :
    Index (c :: s) sub =
      if HasPrefix (c :: s) sub then some 0 else (Index s sub).map (· + 1) := by
  rw [Index]

theorem Index_of_HasPrefix (s sub : GoString) (h : HasPrefix s sub = true) :
    Index s sub = some 0 := by
  cases s with
  | nil =>
    cases sub with
    | nil => simp [Index]
    | cons a p => simp [HasPrefix_nil_cons] at h
  | cons c s => simp [Index, h]

/-- A stretch `t` without the first byte of `sub` is skipped by `Index`. -/
theorem Index_skip (a : Byte) (p t r : GoString) (h : a ∉ t) :
    Index (t ++ r) (a :: p) = (Index r (a :: p)).map (· + t.length) := by
  induction t with
  | nil => simp
  | cons c t ih =>
    have hc : c ≠ a := fun e => h (by simp [e])
    have ht : a ∉ t := fun e => h (by simp [e])
    rw [List.cons_append, Index_cons, HasPrefix_cons_cons, ih ht]
    simp only [hc, decide_False, Bool.false_and, Bool.false_eq_true, if_false, Option.map_map,
      List.length_cons]
    congr 1

theorem Index_none_of_not_mem (a : Byte) (p s : GoString) (h : a ∉ s) :
    Index s (a :: p) = none := by
  have := Index_skip a p s [] h
  simpa [Index] using this

theorem Index_found (a : Byte) (p t r : GoString) (h : a ∉ t) :
    Index (t ++ (a :: p) ++ r) (a :: p) = some t.length := by
  rw [List.append_assoc, Index_skip a p t _ h,
    Index_of_HasPrefix _ _ (HasPrefix_append_self (a :: p) r)]
  simp

/-- An occurrence found by `Index` lies inside the string. -/
theorem Index_some_le (sub : GoString) :
    ∀ (s : GoString) (i : Nat), Index s sub = some i → i + sub.length ≤ s.length := by
  intro s
  induction s with
  | nil =>
    intro i h
    cases sub with
    | nil => simp [Index] at h; simp [← h]
    | cons a p => simp [Index] at h
  | cons c s ih =>
    intro i h
    rw [Index_cons] at h
    by_cases hp : HasPrefix (c :: s) sub = true
    · rw [if_pos hp] at h
      simp only [Option.some.injEq] at h
      subst h
      simp only [HasPrefix, Bool.and_eq_true, decide_eq_true_eq] at hp
      omega
    · rw [if_neg hp] at h
      cases hj : Index s sub with
      | none => simp [hj] at h
      | some j =>
        simp only [hj, Option.map_some', Option.some.injEq] at h
        have := ih j hj
        simp only [List.length_cons]
        omega

theorem splitLoop_none (sep s : GoString) (fuel : Nat) (h : Index s sep = none) :
    splitLoop sep fuel s = [s] := by
  cases fuel <;> simp [splitLoop, h]

theorem splitLoop_some (sep s : GoString) (fuel i : Nat) (h : Index s sep = some i) :
    splitLoop sep (fuel + 1) s = s.take i :: splitLoop sep fuel (s.drop (i + sep.length)) := by
  simp [splitLoop, h]

/-- The loop of `Split` never runs out of fuel: any two bounds of at least the
length of the string give the same pieces. -/
theorem splitLoop_fuel (sep : GoString) (hsep : sep ≠ []) :
    ∀ (fuel : Nat) (s : GoString) (fuel' : Nat), s.length ≤ fuel → s.length ≤ fuel' →
      splitLoop sep fuel s = splitLoop sep fuel' s := by
  intro fuel
  induction fuel with
  | zero =>
    intro s fuel' h0 _
    have hs : s = [] := List.length_eq_zero.mp (Nat.le_zero.mp h0)
    subst hs
    have hn : Index [] sep = none := by simp [Index, hsep]
    rw [splitLoop_none _ _ _ hn, splitLoop_none _ _ _ hn]
  | succ fuel ih =>
    intro s fuel' h1 h2
    cases hi : Index s sep with
    | none => rw [splitLoop_none _ _ _ hi, splitLoop_none _ _ _ hi]
    | some i =>
      have hle := Index_some_le sep s i hi
      have hpos : 0 < sep.length := List.length_pos.mpr hsep
      cases fuel' with
      | zero => omega
      | succ fuel' =>
        rw [splitLoop_some _ _ _ _ hi, splitLoop_some _ _ _ _ hi]
        congr 1
        apply ih
        · simp only [List.length_drop]; omega
        · simp only [List.length_drop]; omega

/-- `Split` with no occurrence of the separator: the string itself. -/
theorem Split_none (s sep : GoString) (h : Index s sep = none) : Split s sep = [s] :=
  splitLoop_none sep s s.length h

/-- `Split` cuts at the first occurrence of the separator and splits the rest. -/
theorem Split_some (s sep : GoString) (hsep : sep ≠ []) (i : Nat) (h : Index s sep = some i) :
    Split s sep = s.take i :: Split (s.drop (i + sep.length)) sep := by
  have hle := Index_some_le sep s i h
  have hpos : 0 < sep.length := List.length_pos.mpr hsep
  unfold Split
  obtain ⟨n, hn⟩ : ∃ n, s.length = n + 1 := ⟨s.length - 1, by omega⟩
  rw [hn, splitLoop_some _ _ _ _ h]
  congr 1
  apply splitLoop_fuel sep hsep
  · simp only [List.length_drop]; omega
  · exact Nat.le_refl _

/-- `Split` of `t ++ sep ++ r` when `t` is free of the first byte of `sep`. -/
theorem Split_append (a : Byte) (p t r : GoString) (h : a ∉ t) :
    Split (t ++ (a :: p) ++ r) (a :: p) = t :: Split r (a :: p) := by
  rw [Split_some _ _ (by simp) t.length (Index_found a p t r h)]
  simp [List.append_assoc]

/-- `Split` of a string free of the first byte of the separator. -/
theorem Split_not_mem (a : Byte) (p t : GoString) (h : a ∉ t) :
    Split t (a :: p) = [t] :=
  Split_none _ _ (Index_none_of_not_mem a p t h)

/-! ## `ParseCoordinatesFromString` on well-formed cells -/

theorem lit_close2 : lit "]]" = [93, 93] := by decide

theorem lit_sep : lit "] [" = [93, 32, 91] := by decide

theorem lit_space : lit " " = [32] := by decide

theorem intercalate_two (sep f g : GoString) (fs : List GoString) :
    sep.intercalate (f :: g :: fs) = f ++ sep ++ sep.intercalate (g :: fs) := by
  simp [List.intercalate, List.intersperse]

theorem intercalate_one (sep f : GoString) : sep.intercalate [f] = f := by
  simp [List.intercalate, List.intersperse]

/-- In the text of fragments free of `]`, joined by `"] ["` and closed by `"]]"`,
the first `"]]"` is the closing one. -/
theorem Index_close_joined :
    ∀ (frags : List GoString), frags ≠ [] → (∀ f ∈ frags, (93 : Byte) ∉ f) →
      Index ((lit "] [").intercalate frags ++ lit "]]") (lit "]]") =
        some ((lit "] [").intercalate frags).length := by
  intro frags
  induction frags with
  | nil => intro h; exact absurd rfl h
  | cons f fs ih =>
    intro _ hf
    have hf0 : (93 : Byte) ∉ f := hf f (by simp)
    cases fs with
    | nil =>
      rw [intercalate_one, lit_close2]
      have := Index_found 93 [93] f [] hf0
      simpa using this
    | cons g gs =>
      have ih' := ih (by simp) (fun x hx => hf x (by simp [hx]))
      rw [intercalate_two, lit_close2, lit_sep] at *
      rw [List.append_assoc, List.append_assoc, Index_skip 93 [93] f _ hf0]
      have e : ([93, 32, 91] : GoString) ++ (List.intercalate [93, 32, 91] (g :: gs) ++ [93, 93])
          = 93 :: ([32, 91] ++ (List.intercalate [93, 32, 91] (g :: gs) ++ [93, 93])) := rfl
      rw [e, Index_cons, HasPrefix_cons_cons]
      have e2 : HasPrefix ([32, 91] ++ (List.intercalate [93, 32, 91] (g :: gs) ++ [93, 93]))
          ([93] : GoString) = false := by
        rw [show ([32, 91] : GoString) ++ (List.intercalate [93, 32, 91] (g :: gs) ++ [93, 93])
          = 32 :: ([91] ++ (List.intercalate [93, 32, 91] (g :: gs) ++ [93, 93])) from rfl,
          HasPrefix_cons_cons]
        simp
      rw [e2, Index_skip 93 [93] [32, 91] _ (by decide), ih']
      simp only [Bool.and_false, Bool.false_eq_true, if_false, Option.map_some',
        List.length_append, List.length_cons, List.length_nil, Option.some.injEq]
      omega

/-- Fragments free of `]`, joined by `"] ["`, are what `Split` on `"] ["` gives back. -/
theorem Split_joined :
    ∀ (frags : List GoString), frags ≠ [] → (∀ f ∈ frags, (93 : Byte) ∉ f) →
      Split ((lit "] [").intercalate frags) (lit "] [") = frags := by
  intro frags
  induction frags with
  | nil => intro h; exact absurd rfl h
  | cons f fs ih =>
    intro _ hf
    have hf0 : (93 : Byte) ∉ f := hf f (by simp)
    cases fs with
    | nil =>
      rw [intercalate_one, lit_sep]
      exact Split_not_mem 93 [32, 91] f hf0
    | cons g gs =>
      have ih' := ih (by simp) (fun x hx => hf x (by simp [hx]))
      rw [intercalate_two]
      rw [lit_sep] at *
      rw [Split_append 93 [32, 91] f _ hf0, ih']

/-- Two space-free tokens joined by one space are what `Split` on `" "` gives back. -/
theorem Split_pair (x y : GoString) (hx : (32 : Byte) ∉ x) (hy : (32 : Byte) ∉ y) :
    Split (x ++ lit " " ++ y) (lit " ") = [x, y] := by
  rw [lit_space, Split_append 32 [] x y hx, Split_not_mem 32 [] y hy]

/-- `ParseCoordinatesFromString` on `"[[" + f1 + "] [" + ... + "] [" + fn + "]]"`
with fragments free of `]`: each fragment split on spaces, in order. -/
theorem ParseCoordinatesFromString_joined (frags : List GoString) (hne : frags ≠ [])
    (hf : ∀ f ∈ frags, (93 : Byte) ∉ f) :
    ParseCoordinatesFromString (lit "[[" ++ (lit "] [").intercalate frags ++ lit "]]") =
      frags.map (fun f => Split f (lit " ")) := by
  unfold ParseCoordinatesFromString
  have h1 : Replace1 (lit "[[" ++ (lit "] [").intercalate frags ++ lit "]]") (lit "[[") [] =
      (lit "] [").intercalate frags ++ lit "]]" := by
    unfold Replace1
    rw [List.append_assoc, Index_of_HasPrefix _ _ (HasPrefix_append_self _ _)]
    simp
  have h2 : Replace1 ((lit "] [").intercalate frags ++ lit "]]") (lit "]]") [] =
      (lit "] [").intercalate frags := by
    unfold Replace1
    rw [Index_close_joined frags hne hf]
    simp
  simp only [h1, h2, Split_joined frags hne hf]

/-! ## The branches of the row loop -/

/-- The multi-value loop on values of two tokens each: one record a value. -/
theorem convertFile.multi_pairs {F : Type} (N : Numeric F) (coordinateCol : Nat) :
    ∀ (pairs : List (GoString × GoString)) (line : List GoString),
      coordinateCol < line.length →
      convertFile.multi N coordinateCol line (pairs.map (fun p => [p.1, p.2])) =
        ⟨pairs.map (fun p => multiRow N coordinateCol line p.1 p.2), none⟩ := by
  intro pairs
  induction pairs with
  | nil => intro line _; simp [convertFile.multi]
  | cons p ps ih =>
    intro line hcol
    have hcol' : coordinateCol <
        (line.set coordinateCol (sprintfPair N (N.parseFloat p.1) (N.parseFloat p.2))).length := by
      simpa using hcol
    simp only [List.map_cons, convertFile.multi, List.getElem?_cons_zero,
      List.getElem?_cons_succ, if_pos hcol, ih _ hcol']
    simp [multiRow, sprintfPair, List.set_set]

/-- The multi-value loop panics when some value has fewer than two tokens. -/
theorem convertFile.multi_short {F : Type} (N : Numeric F) (coordinateCol : Nat) :
    ∀ (values : List (List GoString)) (line : List GoString),
      (∃ v ∈ values, v.length < 2) →
      (convertFile.multi N coordinateCol line values).fault = some Fault.outOfRange := by
  intro values
  induction values with
  | nil => intro line h; simp at h
  | cons v vs ih =>
    intro line h
    rcases v with _ | ⟨a, _ | ⟨b, w⟩⟩
    · simp [convertFile.multi]
    · simp [convertFile.multi]
    · have hvs : ∃ v ∈ vs, v.length < 2 := by
        obtain ⟨u, hu, hlen⟩ := h
        rcases List.mem_cons.mp hu with rfl | hu
        · simp only [List.length_cons] at hlen
          omega
        · exact ⟨u, hu, hlen⟩
      by_cases hcol : coordinateCol < line.length
      · simp only [convertFile.multi, List.getElem?_cons_zero, List.getElem?_cons_succ,
          if_pos hcol]
        exact ih _ hvs
      · simp [convertFile.multi, hcol]

theorem mem_split_first (s : GoString) (h : (32 : Byte) ∈ s) :
    s = firstToken s ++ [32] ++ afterSpace s := by
  induction s with
  | nil => simp at h
  | cons c s ih =>
    by_cases hc : c = 32
    · subst hc
      simp [firstToken, afterSpace]
    · have hs : (32 : Byte) ∈ s := by
        rcases List.mem_cons.mp h with e | e
        · exact absurd e.symm hc
        · exact e
      have := ih hs
      simp only [firstToken, afterSpace] at this ⊢
      simp only [List.takeWhile_cons, List.dropWhile_cons, hc, ne_eq, not_false_eq_true,
        decide_True, if_true, List.cons_append]
      congr 1

theorem firstToken_no_space (s : GoString) : (32 : Byte) ∉ firstToken s := by
  intro h
  have := List.mem_takeWhile_imp h
  simp at this

theorem firstToken_of_no_space (s : GoString) (h : (32 : Byte) ∉ s) : firstToken s = s := by
  unfold firstToken
  rw [List.takeWhile_eq_self_iff]
  intro x hx
  simp only [ne_eq, decide_not, Bool.not_eq_eq_eq_not, Bool.not_true, decide_eq_false_iff_not]
  rintro rfl
  exact h hx

/-- The first piece of `Split` on `" "` is the text before the first space. -/
theorem Split_space_head (s : GoString) :
    ∃ rest, Split s (lit " ") = firstToken s :: rest := by
  rw [lit_space]
  by_cases h : (32 : Byte) ∈ s
  · refine ⟨Split (afterSpace s) [32], ?_⟩
    conv_lhs => rw [mem_split_first s h]
    exact Split_append 32 [] _ _ (firstToken_no_space s)
  · exact ⟨[], by rw [Split_not_mem 32 [] s h, firstToken_of_no_space s h]⟩

/-- With a space in `s`, `Split` on `" "` starts with the text before the first
space and the text between the first space and the next. -/
theorem Split_space_two (s : GoString) (h : (32 : Byte) ∈ s) :
    ∃ rest, Split s (lit " ") = firstToken s :: firstToken (afterSpace s) :: rest := by
  obtain ⟨rest, hrest⟩ := Split_space_head (afterSpace s)
  refine ⟨rest, ?_⟩
  rw [← hrest, lit_space]
  conv_lhs => rw [mem_split_first s h]
  exact Split_append 32 [] _ _ (firstToken_no_space s)

theorem RemoveSquareBrackets_ok (s : GoString) (h : 2 ≤ s.length) :
    RemoveSquareBrackets s = .ok (s.drop 1).dropLast := by
  unfold RemoveSquareBrackets slice
  have hc : (0 : Int) ≤ 1 ∧ (1 : Int) ≤ (s.length : Int) - 1 ∧
      (s.length : Int) - 1 ≤ (s.length : Int) := by omega
  rw [if_pos hc]
  have e1 : ((s.length : Int) - 1).toNat = s.length - 1 := by omega
  rw [e1, List.dropLast_eq_take, List.length_drop, List.take_drop]
  congr 2
  have : 1 + (s.length - 1 - 1) = s.length - 1 := by omega
  rw [this]

theorem convertFile.rows_append {F : Type} (N : Numeric F) (coordinateCol : Nat) :
    ∀ (before later : List ReadResult),
      (convertFile.rows N coordinateCol before).fault = none →
      convertFile.rows N coordinateCol (before ++ later) =
        ⟨(convertFile.rows N coordinateCol before).rows ++
            (convertFile.rows N coordinateCol later).rows,
          (convertFile.rows N coordinateCol later).fault⟩ := by
  intro before
  induction before with
  | nil => intro later _; simp [convertFile.rows]
  | cons r rs ih =>
    intro later h
    simp only [convertFile.rows] at h
    cases hf : (convertFile.row N coordinateCol r.record).fault with
    | some f => simp [hf] at h
    | none =>
      simp only [hf] at h
      simp only [List.cons_append, convertFile.rows, hf]
      rw [show rs.append later = rs ++ later from rfl, ih later h]
      simp

/-! ## `GetColumnForCoordinates` -/

/-- The loop either found no matching header and leaves `coordinateCol` as it
was, or returns the position of the last matching header. -/
theorem GetColumnForCoordinates.loop_spec (ul : GoString → GoString) :
    ∀ (cols : List GoString) (i : Nat) (acc : Int),
      (GetColumnForCoordinates.loop ul cols i acc = acc ∧
        ∀ h ∈ cols, isCoordinateHeader ul h = false) ∨
      (∃ k, ∃ hk : k < cols.length,
        GetColumnForCoordinates.loop ul cols i acc = ((i + k : Nat) : Int) ∧
        isCoordinateHeader ul (cols.get ⟨k, hk⟩) = true ∧
        ∀ j, ∀ hj : j < cols.length, k < j →
          isCoordinateHeader ul (cols.get ⟨j, hj⟩) = false) := by
  intro cols
  induction cols with
  | nil => intro i acc; left; simp [GetColumnForCoordinates.loop]
  | cons h rest ih =>
    intro i acc
    rcases ih (i + 1) (if isCoordinateHeader ul h then (i : Int) else acc) with
      ⟨hres, hno⟩ | ⟨k, hk, hres, hmatch, hlast⟩
    · by_cases hh : isCoordinateHeader ul h = true
      · right
        refine ⟨0, by simp, ?_, by simpa using hh, ?_⟩
        · rw [if_pos hh] at hres
          simp only [GetColumnForCoordinates.loop, if_pos hh, hres, Nat.add_zero]
        · intro j hj hpos
          obtain ⟨j', rfl⟩ : ∃ j', j = j' + 1 := ⟨j - 1, by omega⟩
          have hj' : j' < rest.length := by simpa using hj
          simpa using hno _ (List.get_mem rest j' hj')
      · left
        have hh' : isCoordinateHeader ul h = false := by simpa using hh
        refine ⟨?_, ?_⟩
        · rw [if_neg hh] at hres
          simp only [GetColumnForCoordinates.loop, if_neg hh, hres]
        · intro x hx
          rcases List.mem_cons.mp hx with rfl | hx
          · exact hh'
          · exact hno x hx
    · right
      refine ⟨k + 1, by simpa using hk, ?_, by simpa using hmatch, ?_⟩
      · simp only [GetColumnForCoordinates.loop, hres]
        push_cast
        ring
      · intro j hj hlt
        obtain ⟨j', rfl⟩ : ∃ j', j = j' + 1 := ⟨j - 1, by omega⟩
        have hj' : j' < rest.length := by simpa using hj
        simpa using hlast j' hj' (by omega)

/-- C1: `GetColumnForCoordinates` returns -1 exactly when no header's lower-cased
name contains "koordinaatit"; when some header matches, it returns the largest
index whose header matches (the last match). -/
theorem GetColumnForCoordinates_last_match (ul : GoString → GoString)
    (columns : List GoString) :
    (GetColumnForCoordinates ul columns = -1 ↔
      ∀ h ∈ columns, Contains (ToLower ul h) (lit "koordinaatit") = false) ∧
    ((∃ h ∈ columns, Contains (ToLower ul h) (lit "koordinaatit") = true) →
      ∃ k, ∃ hk : k < columns.length,
        GetColumnForCoordinates ul columns = (k : Int) ∧
        Contains (ToLower ul (columns.get ⟨k, hk⟩)) (lit "koordinaatit") = true ∧
        ∀ j, ∀ hj : j < columns.length, k < j →
          Contains (ToLower ul (columns.get ⟨j, hj⟩)) (lit "koordinaatit") = false) := by
  have key := GetColumnForCoordinates.loop_spec ul columns 0 (-1)
  simp only [isCoordinateHeader, marker, Nat.zero_add] at key
  unfold GetColumnForCoordinates
  rcases key with ⟨hres, hno⟩ | ⟨k, hk, hres, hmatch, hlast⟩
  · refine ⟨⟨fun _ => hno, fun _ => hres⟩, ?_⟩
    rintro ⟨h, hmem, hm⟩
    rw [hno h hmem] at hm
    exact absurd hm (by simp)
  · refine ⟨⟨fun h => ?_, fun h => ?_⟩, fun _ => ⟨k, hk, hres, hmatch, hlast⟩⟩
    · rw [hres] at h
      omega
    · have := h _ (List.get_mem columns k hk)
      rw [hmatch] at this
      exact absurd this (by simp)

/-! ## `RemoveSquareBrackets` -/

/-- C9: `RemoveSquareBrackets` panics exactly on the strings shorter than 2
bytes; on a string of at least 2 bytes it returns the string without its first
and its last byte, 2 bytes shorter; and `"[" + t + "]"` gives `t`. -/
theorem RemoveSquareBrackets_spec (s : GoString) :
    ((∃ f, RemoveSquareBrackets s = .error f) ↔ s.length < 2) ∧
    (2 ≤ s.length → ∃ r a b, RemoveSquareBrackets s = .ok r ∧ s = a :: (r ++ [b]) ∧
      r.length = s.length - 2) ∧
    (∀ t : GoString, RemoveSquareBrackets (lit "[" ++ t ++ lit "]") = .ok t) := by
  refine ⟨?_, ?_, ?_⟩
  · unfold RemoveSquareBrackets slice
    by_cases h : (0 : Int) ≤ 1 ∧ (1 : Int) ≤ (s.length : Int) - 1 ∧
        (s.length : Int) - 1 ≤ (s.length : Int)
    · rw [if_pos h]
      simp only [reduceCtorEq, exists_false, false_iff, not_lt]
      omega
    · rw [if_neg h]
      have h1 : ¬ ((1 : Int) ≤ (s.length : Int) - 1) :=
        fun h1 => h ⟨by omega, h1, by omega⟩
      exact ⟨fun _ => by omega, fun _ => ⟨_, rfl⟩⟩
  · intro h2
    obtain ⟨a, s1, rfl⟩ : ∃ a s1, s = a :: s1 := by
      cases s with
      | nil => simp at h2
      | cons a s1 => exact ⟨a, s1, rfl⟩
    have hne : s1 ≠ [] := by
      intro h; subst h; simp at h2
    refine ⟨s1.dropLast, a, s1.getLast hne, ?_, ?_, ?_⟩
    · unfold RemoveSquareBrackets slice
      have hc : (0 : Int) ≤ 1 ∧ (1 : Int) ≤ ((a :: s1).length : Int) - 1 ∧
          ((a :: s1).length : Int) - 1 ≤ ((a :: s1).length : Int) := by
        simp only [List.length_cons] at h2 ⊢
        omega
      rw [if_pos hc]
      have e1 : (((a :: s1).length : Int) - 1).toNat = s1.length := by
        simp
      rw [e1]
      obtain ⟨n, hn⟩ : ∃ n, s1.length = n + 1 :=
        ⟨s1.length - 1, by have := List.length_pos.mpr hne; omega⟩
      simp [List.dropLast_eq_take, hn]
    · rw [List.dropLast_append_getLast hne]
    · simp
  · intro t
    unfold RemoveSquareBrackets slice
    have hl : (lit "[" ++ t ++ lit "]").length = t.length + 2 := by
      simp [lit]
    rw [hl]
    have hc : (0 : Int) ≤ 1 ∧ (1 : Int) ≤ ((t.length + 2 : Nat) : Int) - 1 ∧
        ((t.length + 2 : Nat) : Int) - 1 ≤ ((t.length + 2 : Nat) : Int) := by
      omega
    rw [if_pos hc]
    have e1 : (((t.length + 2 : Nat) : Int) - 1).toNat = t.length + 1 := by omega
    rw [e1]
    simp [lit]

/-! ## The row loop of `convertFile` -/

/-- C2: for a record whose coordinate cell is `"[[x1 y1] [x2 y2] ... [xn yn]]"`
with `n >= 1` and every token non-empty, free of spaces and of square brackets,
the multi-value branch completes without a panic and writes exactly `n`
records, in pair order; the `k`-th is the record with the coordinate cell
replaced by `"[" + f(xk) + " " + f(yk) + "]"` and followed by the latitude, then
the longitude, of the transform of `(xk, yk)`. -/
theorem convertFile_multi_value_rows {F : Type} (N : Numeric F) (coordinateCol : Nat)
    (line : List GoString) (pairs : List (GoString × GoString))
    (hcell : (line)[coordinateCol]? = some (multiCell pairs))
    (hne : pairs ≠ [])
    (htok : ∀ p ∈ pairs, IsToken p.1 ∧ IsToken p.2) :
    convertFile.row N coordinateCol line =
        ⟨pairs.map (fun p => multiRow N coordinateCol line p.1 p.2), none⟩ ∧
      (convertFile.row N coordinateCol line).rows.length = pairs.length := by
  have hcol : coordinateCol < line.length := by
    rcases Nat.lt_or_ge coordinateCol line.length with h | h
    · exact h
    · rw [List.getElem?_eq_none h] at hcell
      exact absurd hcell (by simp)
  have hpre : HasPrefix (multiCell pairs) (lit "[[") = true := by
    unfold multiCell
    rw [List.append_assoc]
    exact HasPrefix_append_self _ _
  have hfr : ∀ f ∈ pairs.map (fun p => p.1 ++ lit " " ++ p.2), (93 : Byte) ∉ f := by
    intro f hf
    obtain ⟨p, hp, rfl⟩ := List.mem_map.mp hf
    obtain ⟨⟨_, _, _, h1⟩, ⟨_, _, _, h2⟩⟩ := htok p hp
    simp only [lit_space, List.mem_append, List.mem_singleton, not_or]
    exact ⟨⟨h1, by decide⟩, h2⟩
  have hparse : ParseCoordinatesFromString (multiCell pairs) =
      pairs.map (fun p => [p.1, p.2]) := by
    unfold multiCell
    rw [ParseCoordinatesFromString_joined _ (by simpa using hne) hfr, List.map_map]
    apply List.map_congr_left
    intro p hp
    obtain ⟨⟨_, h1, _, _⟩, ⟨_, h2, _, _⟩⟩ := htok p hp
    exact Split_pair p.1 p.2 h1 h2
  have hrow : convertFile.row N coordinateCol line =
      ⟨pairs.map (fun p => multiRow N coordinateCol line p.1 p.2), none⟩ := by
    unfold convertFile.row
    simp only [hcell, hpre, if_true, hparse]
    exact convertFile.multi_pairs N coordinateCol pairs line hcol
  exact ⟨hrow, by rw [hrow]; simp⟩

/-- C2, at the cell `"[[1 2] [3 4]]"`: two records, with the cells
`"[1.000000 2.000000]"` and `"[3.000000 4.000000]"`. -/
theorem convertFile_multi_value_rows_witness :
    convertFile.row Numeric.whole 1 [lit "a", lit "[[1 2] [3 4]]"] =
      ⟨[[lit "a", lit "[1.000000 2.000000]", lit "2.000000", lit "1.000000"],
        [lit "a", lit "[3.000000 4.000000]", lit "4.000000", lit "3.000000"]], none⟩ :=
  (convertFile_multi_value_rows Numeric.whole 1 [lit "a", lit "[[1 2] [3 4]]"]
    [(lit "1", lit "2"), (lit "3", lit "4")] (by decide) (by decide)
    (by unfold IsToken; decide)).1.trans (by decide)

/-- C3: for a record whose coordinate cell does not start with `"[["`, has at
least 2 bytes and, without its first and last byte, contains a space, the
single-value branch completes without a panic and writes exactly one record:
the record as it was read, followed by the latitude, then the longitude, of the
transform of `(x, y)`, parsed from the first and the second space-separated
token of the stripped cell. -/
theorem convertFile_single_value_row {F : Type} (N : Numeric F) (coordinateCol : Nat)
    (line : List GoString) (cell : GoString)
    (hcell : (line)[coordinateCol]? = some cell)
    (hpre : HasPrefix cell (lit "[[") = false)
    (hlen : 2 ≤ cell.length)
    (hspace : (32 : Byte) ∈ (cell.drop 1).dropLast) :
    convertFile.row N coordinateCol line =
      ⟨[singleRow N line (firstToken (cell.drop 1).dropLast)
          (firstToken (afterSpace (cell.drop 1).dropLast))], none⟩ := by
  obtain ⟨rest, hsplit⟩ := Split_space_two _ hspace
  unfold convertFile.row convertFile.single
  simp only [hcell, hpre, Bool.false_eq_true, if_false, RemoveSquareBrackets_ok cell hlen,
    hsplit, List.getElem?_cons_zero, List.getElem?_cons_succ, singleRow]

/-- C3, at the cell `"[123.000000 456.000000]"`. -/
theorem convertFile_single_value_row_witness :
    convertFile.row Numeric.whole 1 [lit "a", lit "[123.000000 456.000000]"] =
      ⟨[[lit "a", lit "[123.000000 456.000000]", lit "456.000000", lit "123.000000"]], none⟩ :=
  (convertFile_single_value_row Numeric.whole 1 [lit "a", lit "[123.000000 456.000000]"]
    (lit "[123.000000 456.000000]") (by decide) (by decide) (by decide)
    (by decide)).trans (by decide)

/-- C8, as the source behaves: when the coordinate cell starts with `"[["` and
`ParseCoordinatesFromString` gives some fragment of fewer than 2 tokens, the
multi-value branch ends in an out-of-range panic. -/
theorem convertFile_multi_value_short_fragment {F : Type} (N : Numeric F)
    (coordinateCol : Nat) (line : List GoString) (cell : GoString)
    (hcell : (line)[coordinateCol]? = some cell)
    (hpre : HasPrefix cell (lit "[[") = true)
    (hshort : ∃ v ∈ ParseCoordinatesFromString cell, v.length < 2) :
    (convertFile.row N coordinateCol line).fault = some Fault.outOfRange := by
  unfold convertFile.row
  simp only [hcell, hpre, if_true]
  exact convertFile.multi_short N coordinateCol _ line hshort

/-- C8, at the cell `"[[1 2] [3]]"`: the second fragment has one token. -/
theorem convertFile_multi_value_short_fragment_witness :
    (convertFile.row Numeric.whole 0 [lit "[[1 2] [3]]"]).fault = some Fault.outOfRange :=
  convertFile_multi_value_short_fragment Numeric.whole 0 [lit "[[1 2] [3]]"]
    (lit "[[1 2] [3]]") (by decide) (by decide) (by decide)

/-- C8 fails for a fragment of more than 2 tokens: the cell `"[[1 2 3]]"` parses
to one fragment of 3 tokens, and the branch completes without a panic, writing
one record from the first two tokens. -/
theorem convertFile_multi_value_long_fragment :
    (HasPrefix (lit "[[1 2 3]]") (lit "[[") = true ∧
      ∃ v ∈ ParseCoordinatesFromString (lit "[[1 2 3]]"), v.length ≠ 2) ∧
    ∀ (F : Type) (N : Numeric F),
      convertFile.row N 0 [lit "[[1 2 3]]"] =
        ⟨[multiRow N 0 [lit "[[1 2 3]]"] (lit "1") (lit "2")], none⟩ :=
  ⟨by decide, fun _ _ => rfl⟩

/-- C10, as the source behaves: the error of a read is not looked at, and a
read that returns an error other than end-of-stream with a record that has no
field at the coordinate column (the empty record of a parse error, a record
that is too short) ends the run in an out-of-range panic: nothing is written
for that record and no later record is processed. -/
theorem convertFile_rows_error_record_stops {F : Type} (N : Numeric F) (coordinateCol : Nat)
    (before later : List ReadResult) (r : ReadResult)
    (_herr : r.err ≠ none)
    (hshort : r.record.length ≤ coordinateCol)
    (hbefore : (convertFile.rows N coordinateCol before).fault = none) :
    convertFile.rows N coordinateCol (before ++ r :: later) =
      ⟨(convertFile.rows N coordinateCol before).rows, some Fault.outOfRange⟩ := by
  rw [convertFile.rows_append N coordinateCol before (r :: later) hbefore]
  simp [convertFile.rows, convertFile.row, List.getElem?_eq_none hshort]

/-- C10, at a run of three reads whose second returns a parse error. -/
theorem convertFile_rows_error_record_stops_witness :
    convertFile.rows Numeric.whole 1
        [⟨[lit "a", lit "[1 2]"], none⟩, ⟨[], some ReadError.other⟩,
          ⟨[lit "b", lit "[3 4]"], none⟩] =
      ⟨[[lit "a", lit "[1 2]", lit "2.000000", lit "1.000000"]], some Fault.outOfRange⟩ :=
  (convertFile_rows_error_record_stops Numeric.whole 1 [⟨[lit "a", lit "[1 2]"], none⟩]
    [⟨[lit "b", lit "[3 4]"], none⟩] ⟨[], some ReadError.other⟩ (by decide) (by decide)
    (by decide)).trans (by decide)

/-- C10 fails for `csv.ErrFieldCount`: a record with one field too many is
returned together with the error, it is converted like any other record, and
the record after it is converted too; the run ends without a panic. -/
theorem convertFile_rows_field_count_goes_on :
    (∃ e, (ReadResult.mk [lit "a", lit "[1 2]", lit "extra"] (some ReadError.fieldCount)).err
        = some e) ∧
    ∀ (F : Type) (N : Numeric F),
      convertFile.rows N 1
          [⟨[lit "a", lit "[1 2]", lit "extra"], some ReadError.fieldCount⟩,
            ⟨[lit "b", lit "[3 4]"], none⟩] =
        ⟨[singleRow N [lit "a", lit "[1 2]", lit "extra"] (lit "1") (lit "2"),
          singleRow N [lit "b", lit "[3 4]"] (lit "3") (lit "4")], none⟩ :=
  ⟨⟨_, rfl⟩, fun _ _ => rfl⟩

/-! ## Where the source departs from its own comments -/

/-- C7: with two matching headers `GetColumnForCoordinates` returns the index
of the second one, not of the first. -/
theorem GetColumnForCoordinates_two_matches (ul : GoString → GoString) :
    GetColumnForCoordinates ul [lit "koordinaatit", lit "id", lit "koordinaatit2"] = 2 := by
  rfl

/-- C4: on `"[[1 2]] [3 4]]"` the second `Replace` removes the first `"]]"`, not
the trailing one: the result differs from the split of the text between the
leading `"[["` and the trailing `"]]"`. -/
theorem ParseCoordinatesFromString_inner_close :
    ParseCoordinatesFromString (lit "[[1 2]] [3 4]]") =
        [[lit "1", lit "2", lit "[3", lit "4]]"]] ∧
      (Split (((lit "[[1 2]] [3 4]]").drop 2).take ((lit "[[1 2]] [3 4]]").length - 4))
          (lit "] [")).map (fun f => Split f (lit " ")) =
        [[lit "1", lit "2]"], [lit "3", lit "4"]] := by
  decide

/-- C5: for `"a.csv.csv"` the output name is `"a-out.csv.csv"`: the first
`".csv"` is replaced, not the trailing one. -/
theorem convertFile_outName_inner_csv (ul : GoString → GoString) :
    HasSuffix (ToLower ul (lit "a.csv.csv")) (lit ".csv") = true ∧
    convertFile.outName ul (lit "a.csv.csv") = lit "a-out.csv.csv" ∧
    convertFile.outName ul (lit "a.csv.csv") ≠
      (ToLower ul (lit "a.csv.csv")).take ((ToLower ul (lit "a.csv.csv")).length - 4)
        ++ lit "-out.csv" := by
  refine ⟨rfl, rfl, ?_⟩
  show lit "a-out.csv.csv" ≠ lit "a.csv-out.csv"
  decide

/-- C6: `"a.csv.csv"` is selected by the scan, and so is the output file written
for it: a second run over the directory converts `"a-out.csv.csv"` as well. -/
theorem main_selects_generated_file (ul : GoString → GoString) :
    main.selects ul ⟨lit "a.csv.csv", true⟩ = true ∧
    main.selects ul ⟨convertFile.outName ul (lit "a.csv.csv"), true⟩ = true ∧
    main.fileEntries ul [⟨lit "a.csv.csv", true⟩,
        ⟨convertFile.outName ul (lit "a.csv.csv"), true⟩] =
      [lit "a.csv.csv", lit "a-out.csv.csv"] := by
  refine ⟨rfl, rfl, rfl⟩

end CsvCoordinates
